import Mathlib

/-! Formal model of the async-tftp server dispatcher (src/server/server.rs)
and of the TFTP packet codec it relies on.  The codec (packet.rs) and the
per-transfer state machines (read_req.rs / write_req.rs) are not part of the
sources; where they are needed they are modelled from the specification, as
noted in the doc comments. -/

set_option maxHeartbeats 1000000
set_option maxRecDepth 4000

namespace Tftp

/-- Negotiated request options (block size, timeout, transfer size), each
independently optional, as in the spec's RequestOptions. -/
structure Opts where
  block_size : Option Nat := none
  timeout : Option Nat := none
  transfer_size : Option Nat := none
  deriving DecidableEq

/-- Read/write request body: filename, transfer mode, requested options. -/
structure RwReq where
  filename : List Nat
  mode : List Nat
  opts : Opts
  deriving DecidableEq

/-- Modelled from the spec: the six TFTP packet kinds (packet.rs is not under
src/).  Request(read-or-write flag, filename, mode, options), Data(block,
payload), Ack(block), Error(code, message), OptionAck(options). -/
inductive Packet where
  | Rrq (req : RwReq)
  | Wrq (req : RwReq)
  | Data (block : Nat) (payload : List Nat)
  | Ack (block : Nat)
  | Error (code : Nat) (msg : List Nat)
  | OAck (opts : Opts)
  deriving DecidableEq

/-- ASCII bytes of the option name "blksize". -/
def blksizeName : List Nat := [98, 108, 107, 115, 105, 122, 101]

/-- ASCII bytes of the option name "timeout". -/
def timeoutName : List Nat := [116, 105, 109, 101, 111, 117, 116]

/-- ASCII bytes of the option name "tsize". -/
def tsizeName : List Nat := [116, 115, 105, 122, 101]

/-- Decimal ASCII encoding of a natural number, most significant digit first. -/
def natToDec (n : Nat) : List Nat :=
  if n = 0 then [48] else (Nat.digits 10 n).reverse.map (fun d => d + 48)

/-- Accumulate decimal ASCII digits into a number; fails on a non-digit byte. -/
def parseNatAux : List Nat → Nat → Option Nat
  | [], acc => some acc
  | d :: rest, acc =>
    if 48 ≤ d ∧ d ≤ 57 then parseNatAux rest (acc * 10 + (d - 48)) else none

/-- Parse a nonempty all-digit byte string as a decimal number. -/
def parseNat : List Nat → Option Nat
  | [] => none
  | d :: rest => parseNatAux (d :: rest) 0

/-- Split a byte string at its first NUL: the text before it and the remainder
after it; fails when no NUL is present. -/
def spanNul : List Nat → Option (List Nat × List Nat)
  | [] => none
  | 0 :: rest => some ([], rest)
  | (b + 1) :: rest =>
    match spanNul rest with
    | none => none
    | some sr => some ((b + 1) :: sr.1, sr.2)

/-- Parse zero or more NUL-terminated (name, value) pairs, fuelled by the
input length (each pair consumes at least two bytes). -/
def parseOptEntriesF : Nat → List Nat → Option (List (List Nat × List Nat))
  | _, [] => some []
  | 0, _ :: _ => none
  | fuel + 1, b :: bs =>
    match spanNul (b :: bs) with
    | none => none
    | some nr =>
      match spanNul nr.2 with
      | none => none
      | some vr =>
        match parseOptEntriesF fuel vr.2 with
        | none => none
        | some rest => some ((nr.1, vr.1) :: rest)

/-- Parse the whole option section into (name, value) pairs. -/
def parseOptEntries (bs : List Nat) : Option (List (List Nat × List Nat)) :=
  parseOptEntriesF bs.length bs

/-- Modelled from the spec: a pair is decoded into RequestOptions only if the
option name is recognized (unrecognized options are ignored, not errors);
a malformed option value of a recognized name is a decode error. -/
def applyOpt (o : Opts) (name val : List Nat) : Option Opts :=
  if name = blksizeName then
    match parseNat val with
    | none => none
    | some v => some { o with block_size := some v }
  else if name = timeoutName then
    match parseNat val with
    | none => none
    | some v => some { o with timeout := some v }
  else if name = tsizeName then
    match parseNat val with
    | none => none
    | some v => some { o with transfer_size := some v }
  else some o

/-- Fold the decoded (name, value) pairs into an Opts record. -/
def optsFromEntries : Opts → List (List Nat × List Nat) → Option Opts
  | o, [] => some o
  | o, (n, v) :: rest =>
    match applyOpt o n v with
    | none => none
    | some o2 => optsFromEntries o2 rest

/-- Decode the option section of a request or OptionAck packet. -/
def decodeOpts (bs : List Nat) : Option Opts :=
  match parseOptEntries bs with
  | none => none
  | some entries => optsFromEntries {} entries

/-- Encode one optional field as zero or one (name, value) pair. -/
def optEntry (name : List Nat) (v : Option Nat) : List (List Nat × List Nat) :=
  match v with
  | none => []
  | some n => [(name, natToDec n)]

/-- The (name, value) pairs of an Opts record, in canonical order. -/
def Opts.toEntries (o : Opts) : List (List Nat × List Nat) :=
  optEntry blksizeName o.block_size ++ optEntry timeoutName o.timeout ++
    optEntry tsizeName o.transfer_size

/-- Wire form of a list of (name, value) pairs: each string NUL-terminated. -/
def encodeEntries : List (List Nat × List Nat) → List Nat
  | [] => []
  | (n, v) :: rest => n ++ (0 :: (v ++ (0 :: encodeEntries rest)))

/-- Wire form of the option section. -/
def Opts.encode (o : Opts) : List Nat := encodeEntries o.toEntries

/-- Big-endian 16-bit encoding. -/
def u16be (n : Nat) : List Nat := [n / 256, n % 256]

/-- Modelled from the spec: encode(Packet) -> bytes, big-endian two-byte
opcode followed by the type-specific fields of the wire-format table. -/
def Packet.encode : Packet → List Nat
  | .Rrq r => 0 :: 1 :: (r.filename ++ (0 :: (r.mode ++ (0 :: r.opts.encode))))
  | .Wrq r => 0 :: 2 :: (r.filename ++ (0 :: (r.mode ++ (0 :: r.opts.encode))))
  | .Data b p => 0 :: 3 :: (u16be b ++ p)
  | .Ack b => 0 :: 4 :: u16be b
  | .Error c m => 0 :: 5 :: (u16be c ++ (m ++ [0]))
  | .OAck o => 0 :: 6 :: o.encode

/-- Decode the body of a Request packet: NUL-terminated filename and mode,
followed by the option section. -/
def decodeReq (bs : List Nat) : Option RwReq :=
  match spanNul bs with
  | none => none
  | some fr =>
    match spanNul fr.2 with
    | none => none
    | some mr =>
      match decodeOpts mr.2 with
      | none => none
      | some o => some ⟨fr.1, mr.1, o⟩

/-- Decode the body of a Request packet into a Rrq or Wrq packet. -/
def decodeReqBody (isWrite : Bool) (rest : List Nat) : Except Unit Packet :=
  match decodeReq rest with
  | none => .error ()
  | some r => .ok (if isWrite then .Wrq r else .Rrq r)

/-- Decode the body of an Error packet: NUL-terminated message, nothing after. -/
def decodeErrBody (code : Nat) (rest : List Nat) : Except Unit Packet :=
  match spanNul rest with
  | none => .error ()
  | some mr => if mr.2 = [] then .ok (.Error code mr.1) else .error ()

/-- Decode the body of an OptionAck packet. -/
def decodeOAckBody (rest : List Nat) : Except Unit Packet :=
  match decodeOpts rest with
  | none => .error ()
  | some o => .ok (.OAck o)

/-- Modelled from the spec: decode(bytes) -> Packet | DecodeError.  Validates
the two-byte opcode first; fails with an error (never a panic) on truncated
buffers, unknown opcodes, or malformed option values. -/
def Packet.decode (bs : List Nat) : Except Unit Packet :=
  match bs with
  | 0 :: 1 :: rest => decodeReqBody false rest
  | 0 :: 2 :: rest => decodeReqBody true rest
  | 0 :: 3 :: b1 :: b2 :: payload => .ok (.Data (b1 * 256 + b2) payload)
  | 0 :: 4 :: [b1, b2] => .ok (.Ack (b1 * 256 + b2))
  | 0 :: 5 :: b1 :: b2 :: rest => decodeErrBody (b1 * 256 + b2) rest
  | 0 :: 6 :: rest => decodeOAckBody rest
  | _ => .error ()

/-- Nonempty printable ASCII text, the spec's invariant for filename and mode. -/
def textOk (s : List Nat) : Prop := s ≠ [] ∧ ∀ b ∈ s, 32 ≤ b ∧ b ≤ 126

instance (s : List Nat) : Decidable (textOk s) := by
  unfold textOk; infer_instance

/-- Printable ASCII text, possibly empty (error messages). -/
def msgOk (s : List Nat) : Prop := ∀ b ∈ s, 32 ≤ b ∧ b ≤ 126

instance (s : List Nat) : Decidable (msgOk s) := by
  unfold msgOk; infer_instance

/-- The spec's invariants on constructible Packet values: filename and mode
are non-empty printable text; block numbers and error codes are unsigned
16-bit; error messages are printable text. -/
def Packet.wf : Packet → Prop
  | .Rrq r => textOk r.filename ∧ textOk r.mode
  | .Wrq r => textOk r.filename ∧ textOk r.mode
  | .Data b _ => b < 65536
  | .Ack b => b < 65536
  | .Error c m => c < 65536 ∧ msgOk m
  | .OAck _ => True

instance (p : Packet) : Decidable p.wf := by
  unfold Packet.wf; cases p <;> infer_instance

theorem spanNul_append (s t : List Nat) (h : ∀ b ∈ s, b ≠ 0) :
    spanNul (s ++ (0 :: t)) = some (s, t) := by
  induction s with
  | nil => simp [spanNul]
  | cons b bs ih =>
    have hb : b ≠ 0 := h b (by simp)
    obtain ⟨k, rfl⟩ : ∃ k, b = k + 1 := ⟨b - 1, by omega⟩
    simp only [List.cons_append, spanNul, List.append_eq]
    rw [ih (fun x hx => h x (by simp [hx]))]

theorem parseNatAux_digits (l : List Nat) (h : ∀ d ∈ l, d < 10) (acc : Nat) :
    parseNatAux (l.map (fun d => d + 48)) acc =
      some (l.foldl (fun a d => a * 10 + d) acc) := by
  induction l generalizing acc with
  | nil => simp [parseNatAux]
  | cons d ds ih =>
    have hd : d < 10 := h d (by simp)
    simp only [List.map_cons, parseNatAux, List.foldl_cons]
    rw [if_pos (by omega)]
    have h48 : d + 48 - 48 = d := by omega
    rw [h48, ih (fun x hx => h x (by simp [hx]))]

theorem foldl_reverse_ofDigits (l : List Nat) (acc : Nat) :
    l.reverse.foldl (fun a d => a * 10 + d) acc =
      acc * 10 ^ l.length + Nat.ofDigits 10 l := by
  induction l generalizing acc with
  | nil => simp
  | cons d ds ih =>
    simp only [List.reverse_cons, List.foldl_append, List.foldl_cons,
      List.foldl_nil, ih, Nat.ofDigits_cons, List.length_cons]
    ring

theorem parseNat_cons (a : Nat) (l : List Nat) :
    parseNat (a :: l) = parseNatAux (a :: l) 0 := rfl

theorem parseNat_natToDec (n : Nat) : parseNat (natToDec n) = some n := by
  by_cases h0 : n = 0
  · subst h0; decide
  · have hlt : ∀ d ∈ (Nat.digits 10 n).reverse, d < 10 := fun d hd =>
      Nat.digits_lt_base (by norm_num) (List.mem_reverse.mp hd)
    have hrev : (Nat.digits 10 n).reverse ≠ [] := by
      simpa using Nat.digits_ne_nil_iff_ne_zero.mpr h0
    obtain ⟨d, ds, hds⟩ := List.exists_cons_of_ne_nil hrev
    unfold natToDec
    rw [if_neg h0, hds]
    show parseNatAux (List.map (fun x => x + 48) (d :: ds)) 0 = some n
    rw [← hds, parseNatAux_digits _ hlt 0,
      foldl_reverse_ofDigits (Nat.digits 10 n) 0]
    simp [Nat.ofDigits_digits]

theorem natToDec_ne_zero (n : Nat) : ∀ b ∈ natToDec n, b ≠ 0 := by
  intro b hb
  unfold natToDec at hb
  by_cases h0 : n = 0
  · rw [if_pos h0] at hb; simp at hb; omega
  · rw [if_neg h0] at hb
    simp only [List.mem_map] at hb
    obtain ⟨d, _, rfl⟩ := hb
    omega

theorem natToDec_ne_nil (n : Nat) : natToDec n ≠ [] := by
  unfold natToDec
  by_cases h0 : n = 0
  · rw [if_pos h0]; simp
  · rw [if_neg h0]
    have hne : Nat.digits 10 n ≠ [] := Nat.digits_ne_nil_iff_ne_zero.mpr h0
    simpa using hne

/-- Well-formed option entries: nonempty NUL-free names, NUL-free values. -/
def entriesWf (entries : List (List Nat × List Nat)) : Prop :=
  ∀ e ∈ entries, e.1 ≠ [] ∧ (∀ b ∈ e.1, b ≠ 0) ∧ (∀ b ∈ e.2, b ≠ 0)

theorem parseOptEntriesF_encode (entries : List (List Nat × List Nat)) :
    ∀ fuel, entriesWf entries → entries.length ≤ fuel →
      parseOptEntriesF fuel (encodeEntries entries) = some entries := by
  induction entries with
  | nil => intro fuel _ _; cases fuel <;> simp [encodeEntries, parseOptEntriesF]
  | cons e rest ih =>
    intro fuel hwf hlen
    obtain ⟨n, v⟩ := e
    obtain ⟨hne, hn0, hv0⟩ := hwf (n, v) (by simp)
    obtain ⟨hn, tn, rfl⟩ := List.exists_cons_of_ne_nil hne
    obtain ⟨f, rfl⟩ : ∃ f, fuel = f + 1 := ⟨fuel - 1, by simp at hlen; omega⟩
    have h1 : spanNul ((hn :: tn) ++ 0 :: (v ++ 0 :: encodeEntries rest)) =
        some (hn :: tn, v ++ 0 :: encodeEntries rest) := spanNul_append _ _ hn0
    have h2 : spanNul (v ++ 0 :: encodeEntries rest) =
        some (v, encodeEntries rest) := spanNul_append _ _ hv0
    have h3 : parseOptEntriesF f (encodeEntries rest) = some rest :=
      ih f (fun x hx => hwf x (by simp [hx])) (by simp at hlen; omega)
    simp only [List.cons_append] at h1
    simp only [encodeEntries, List.cons_append, parseOptEntriesF]
    simp [h1, h2, h3]

theorem length_le_encodeEntries (entries : List (List Nat × List Nat)) :
    entries.length ≤ (encodeEntries entries).length := by
  induction entries with
  | nil => simp [encodeEntries]
  | cons e rest ih =>
    obtain ⟨n, v⟩ := e
    simp only [encodeEntries, List.length_append, List.length_cons]
    omega

theorem parseOptEntries_encode (entries : List (List Nat × List Nat))
    (hwf : entriesWf entries) :
    parseOptEntries (encodeEntries entries) = some entries :=
  parseOptEntriesF_encode entries _ hwf (length_le_encodeEntries entries)

theorem spanNul_append' (s : List Nat) (h : ∀ b ∈ s, b ≠ 0) (t : List Nat) :
    spanNul (s ++ (0 :: t)) = some (s, t) :=
  spanNul_append s t h

theorem optEntry_wf (name : List Nat) (hne : name ≠ []) (h0 : ∀ b ∈ name, b ≠ 0)
    (v : Option Nat) :
    ∀ e ∈ optEntry name v,
      e.1 ≠ [] ∧ (∀ b ∈ e.1, b ≠ 0) ∧ (∀ b ∈ e.2, b ≠ 0) := by
  intro e he
  cases v with
  | none => simp [optEntry] at he
  | some n =>
    simp only [optEntry, List.mem_singleton] at he
    subst he
    exact ⟨hne, h0, fun b hb => natToDec_ne_zero n b hb⟩

theorem opts_entriesWf (o : Opts) : entriesWf o.toEntries := by
  intro e he
  simp only [Opts.toEntries, List.mem_append] at he
  rcases he with (he | he) | he
  · exact optEntry_wf blksizeName (by decide) (by decide) _ e he
  · exact optEntry_wf timeoutName (by decide) (by decide) _ e he
  · exact optEntry_wf tsizeName (by decide) (by decide) _ e he

theorem optsFromEntries_toEntries (o : Opts) :
    optsFromEntries {} o.toEntries = some o := by
  obtain ⟨ob, ot, os⟩ := o
  cases ob <;> cases ot <;> cases os <;>
    simp [Opts.toEntries, optEntry, optsFromEntries, applyOpt, parseNat_natToDec,
      blksizeName, timeoutName, tsizeName]

theorem decodeOpts_encode (o : Opts) : decodeOpts o.encode = some o := by
  unfold decodeOpts Opts.encode
  rw [parseOptEntries_encode _ (opts_entriesWf o)]
  exact optsFromEntries_toEntries o

theorem textOk_ne_zero {s : List Nat} (h : textOk s) : ∀ b ∈ s, b ≠ 0 :=
  fun b hb => by have := h.2 b hb; omega

theorem msgOk_ne_zero {s : List Nat} (h : msgOk s) : ∀ b ∈ s, b ≠ 0 :=
  fun b hb => by have := h b hb; omega

theorem decodeReq_encode (r : RwReq) (hf : ∀ b ∈ r.filename, b ≠ 0)
    (hm : ∀ b ∈ r.mode, b ≠ 0) :
    decodeReq (r.filename ++ (0 :: (r.mode ++ (0 :: r.opts.encode)))) = some r := by
  simp only [decodeReq, spanNul_append' _ hf, spanNul_append' _ hm,
    decodeOpts_encode]

theorem decodeReqBody_encode (w : Bool) (r : RwReq)
    (hf : ∀ b ∈ r.filename, b ≠ 0) (hm : ∀ b ∈ r.mode, b ≠ 0) :
    decodeReqBody w (r.filename ++ (0 :: (r.mode ++ (0 :: r.opts.encode)))) =
      Except.ok (if w then Packet.Wrq r else Packet.Rrq r) := by
  unfold decodeReqBody
  rw [decodeReq_encode r hf hm]

/-- C3: for every constructible Packet value p (one satisfying the spec's
invariants on Packet values), decoding the byte encoding of p yields p
again: decode(encode(p)) == p. -/
theorem C3_decode_encode_roundtrip (p : Packet) (h : p.wf) :
    Packet.decode (Packet.encode p) = Except.ok p := by
  cases p with
  | Rrq r =>
    obtain ⟨hf, hm⟩ := h
    simp only [Packet.encode, Packet.decode]
    rw [decodeReqBody_encode false r (textOk_ne_zero hf) (textOk_ne_zero hm)]
    simp
  | Wrq r =>
    obtain ⟨hf, hm⟩ := h
    simp only [Packet.encode, Packet.decode]
    rw [decodeReqBody_encode true r (textOk_ne_zero hf) (textOk_ne_zero hm)]
    simp
  | Data b payload =>
    simp only [Packet.encode, u16be, Packet.decode, List.cons_append,
      List.nil_append]
    have hb : b / 256 * 256 + b % 256 = b := by omega
    rw [hb]
  | Ack b =>
    simp only [Packet.encode, u16be, Packet.decode]
    have hb : b / 256 * 256 + b % 256 = b := by omega
    rw [hb]
  | Error c m =>
    obtain ⟨hc, hm⟩ := h
    simp only [Packet.encode, u16be, Packet.decode, List.cons_append,
      List.nil_append]
    unfold decodeErrBody
    rw [spanNul_append' _ (msgOk_ne_zero hm)]
    have hc2 : c / 256 * 256 + c % 256 = c := by omega
    simp [hc2]
  | OAck o =>
    simp only [Packet.encode, Packet.decode]
    unfold decodeOAckBody
    rw [decodeOpts_encode]

/-- A concrete constructible request packet: filename "a.txt", mode "octet",
all three options requested. -/
def samplePacket : Packet :=
  Packet.Rrq ⟨[97, 46, 116, 120, 116], [111, 99, 116, 101, 116],
    { block_size := some 1024, timeout := some 5, transfer_size := some 1000 }⟩

/-- Witness for C3: the round trip at a concrete well-formed packet. -/
theorem C3_roundtrip_witness :
    Packet.wf samplePacket ∧
      Packet.decode (Packet.encode samplePacket) = Except.ok samplePacket :=
  ⟨by decide, C3_decode_encode_roundtrip samplePacket (by decide)⟩

/-- A UDP socket address: the peer's transfer id (IP address and port). -/
structure SocketAddr where
  ip : Nat
  port : Nat
  deriving DecidableEq

/-- The enumerated wire error codes of the spec. -/
inductive ErrorCode where
  | Undefined
  | FileNotFound
  | AccessViolation
  | DiskFull
  | IllegalOperation
  | UnknownTransferId
  | FileExists
  | NoSuchUser
  | OptionNegotiationFailed
  deriving DecidableEq

/-- The crate error type as server.rs uses it: a protocol error carried by
Error::Packet, a bind failure (Error::Bind), or another I/O error. -/
inductive TftpError where
  | Packet (code : ErrorCode)
  | Bind
  | IoErr
  deriving DecidableEq

/-- Modelled from the spec: the translation of a crate error into one of the
wire error codes for the outgoing Error packet (the error.into() conversion
in send_error; error.rs is not under src/): a protocol error keeps its
code and uncategorized failures map to the undefined/generic code. -/
def TftpError.intoCode : TftpError → ErrorCode
  | .Packet c => c
  | .Bind => .Undefined
  | .IoErr => .Undefined

/-- Observable actions of the dispatcher and of a transfer task. -/
inductive Event where
  | spawnRead (peer : SocketAddr) (req : RwReq)
  | spawnWrite (peer : SocketAddr) (req : RwReq)
  | bindSocket (sid : Nat)
  | sendErrorPacket (sid : Nat) (peer : SocketAddr) (code : ErrorCode)
  | logSendFailure (peer : SocketAddr)
  | removeFromRegistry (peer : SocketAddr)
  deriving DecidableEq

/-- The first match of handle_req_packet (server.rs lines 65-72): keep a
decoded Rrq or Wrq packet, drop every other decode outcome. -/
def requestOf (data : List Nat) : Option Packet :=
  match Packet.decode data with
  | .ok (.Rrq r) => some (.Rrq r)
  | .ok (.Wrq r) => some (.Wrq r)
  | .ok _ => none
  | .error _ => none

/-- Result of one dispatcher handling step: the events it emits, the updated
request registry, and whether the unreachable branch was executed. -/
structure DispatchOutcome where
  events : List Event
  reqs : Finset SocketAddr
  panicked : Bool
  deriving DecidableEq

/-- TftpServer::handle_req_packet (server.rs lines 64-84): decode the
datagram, keeping only Request packets; atomically insert the sender into
the request registry, returning early when it was already present; then
spawn the read or write handler, the third match arm being unreachable!. -/
def handle_req_packet (reqs : Finset SocketAddr) (peer : SocketAddr)
    (data : List Nat) : DispatchOutcome :=
  match requestOf data with
  | none => ⟨[], reqs, false⟩
  | some packet =>
    if peer ∈ reqs then ⟨[], reqs, false⟩
    else
      match packet with
      | .Rrq req => ⟨[.spawnRead peer req], insert peer reqs, false⟩
      | .Wrq req => ⟨[.spawnWrite peer req], insert peer reqs, false⟩
      | _ => ⟨[], insert peer reqs, true⟩

/-- One item of incoming network activity at the listening socket: a
datagram from a peer, or an I/O error of the socket itself. -/
inductive NetEvent where
  | datagram (peer : SocketAddr) (data : List Nat)
  | sockErr (e : Nat)
  deriving DecidableEq

/-- The dispatcher's observable state: the request registry, the events
emitted so far, and the (peer, bytes) arguments handed to
handle_req_packet so far. -/
structure ServeState where
  reqs : Finset SocketAddr
  events : List Event
  handled : List (SocketAddr × List Nat)
  deriving DecidableEq

/-- TftpServer::serve (server.rs lines 51-62) run over a finite prefix of
the incoming network activity: recv_from into a fixed 4096-byte buffer (so
at most the first 4096 bytes of each datagram are received), then
handle_req_packet; a socket error propagates out through the ? operator
and ends the loop. -/
def serveRun : List NetEvent → ServeState → Except Nat ServeState
  | [], st => .ok st
  | .sockErr e :: _, _ => .error e
  | .datagram peer data :: rest, st =>
    let d := data.take 4096
    let out := handle_req_packet st.reqs peer d
    serveRun rest ⟨out.reqs, st.events ++ out.events, st.handled ++ [(peer, d)]⟩

/-- Modelled from the spec: the transfer state machine binds its own new
ephemeral socket and performs the whole exchange using only that socket
(read_req.rs / write_req.rs are not under src/).  Sockets of one task are
numbered by allocation order, the machine's socket first. -/
def transferSocketId : Nat := 0

/-- The fresh socket bound inside send_error, allocated after the transfer
machine's own socket. -/
def sendErrorSocketId : Nat := 1

/-- send_error (server.rs lines 152-160): bind a fresh ephemeral socket on
the local address (failing with Error::Bind) and send one encoded Error
packet to the peer from it; the flags say whether the bind and the UDP
send succeed. -/
def send_error (bindOk sendOk : Bool) (err : TftpError) (peer : SocketAddr) :
    List Event × Except TftpError Unit :=
  if bindOk then
    ([.bindSocket sendErrorSocketId,
      .sendErrorPacket sendErrorSocketId peer err.intoCode],
      if sendOk then .ok () else .error .IoErr)
  else ([], .error .Bind)

/-- run_req (server.rs lines 162-177): await the request future; on failure
attempt send_error once, logging (and swallowing) its failure; then
unconditionally remove the peer from the registry. -/
def run_req (result : Except TftpError Unit) (bindOk sendOk : Bool)
    (peer : SocketAddr) (reqs : Finset SocketAddr) :
    List Event × Finset SocketAddr :=
  let evs :=
    match result with
    | .ok _ => []
    | .error e =>
      let se := send_error bindOk sendOk e peer
      match se.2 with
      | .ok _ => se.1
      | .error _ => se.1 ++ [.logSendFailure peer]
  (evs ++ [.removeFromRegistry peer], reqs.erase peer)

/-- The request future of handle_rrq (server.rs lines 94-109): open the
reader through the handler, a handler error being wrapped as
Error::Packet; then the (spec-modelled) read transfer runs, its init
errors propagating, handle() itself returning unit. -/
def req_fut_rrq (openResult : Except ErrorCode Unit)
    (restResult : Except TftpError Unit) : Except TftpError Unit :=
  match openResult with
  | .error e => .error (.Packet e)
  | .ok _ => restResult

/-- The request future of handle_wrq (server.rs lines 125-143): same shape
as handle_rrq with write_req_open and the write transfer. -/
def req_fut_wrq (openResult : Except ErrorCode Unit)
    (restResult : Except TftpError Unit) : Except TftpError Unit :=
  match openResult with
  | .error e => .error (.Packet e)
  | .ok _ => restResult

/-- Recognize a spawned-task event. -/
def isSpawn : Event → Bool
  | .spawnRead _ _ => true
  | .spawnWrite _ _ => true
  | _ => false

/-- Recognize an Error-packet transmission event. -/
def isSendErr : Event → Bool
  | .sendErrorPacket _ _ _ => true
  | _ => false

/-- Number of transfer tasks spawned in an event list. -/
def spawnCount (evs : List Event) : Nat := evs.countP isSpawn

/-- Number of Error-packet transmissions in an event list. -/
def sendErrCount (evs : List Event) : Nat := evs.countP isSendErr

/-- A concrete peer address used by the witnesses. -/
def peer0 : SocketAddr := ⟨100, 2000⟩

/-- The empty request registry. -/
def regEmpty : Finset SocketAddr := ∅

/-- A concrete valid Read-Request datagram: filename "a", mode "octet",
no options. -/
def rrqBytes : List Nat := [0, 1, 97, 0, 111, 99, 116, 101, 116, 0]

theorem requestOf_shape (data : List Nat) (p : Packet)
    (h : requestOf data = some p) :
    (∃ r, p = Packet.Rrq r) ∨ (∃ r, p = Packet.Wrq r) := by
  unfold requestOf at h
  cases hd : Packet.decode data with
  | error e => rw [hd] at h; simp at h
  | ok q =>
    rw [hd] at h
    cases q with
    | Rrq r => simp only [Option.some.injEq] at h; exact Or.inl ⟨r, h.symm⟩
    | Wrq r => simp only [Option.some.injEq] at h; exact Or.inr ⟨r, h.symm⟩
    | Data b pl => simp at h
    | Ack b => simp at h
    | Error c m => simp at h
    | OAck o => simp at h

/-- C1: for a valid Read- or Write-Request datagram whose sender address is
already in the request registry the dispatcher spawns no transfer task and
leaves the registry unchanged; for a sender not present, the address is
inserted and exactly one task is spawned. -/
theorem C1_duplicate_request_suppression (reqs : Finset SocketAddr)
    (peer : SocketAddr) (data : List Nat)
    (hreq : (requestOf data).isSome = true) :
    (peer ∈ reqs →
      spawnCount (handle_req_packet reqs peer data).events = 0 ∧
        (handle_req_packet reqs peer data).reqs = reqs) ∧
    (peer ∉ reqs →
      spawnCount (handle_req_packet reqs peer data).events = 1 ∧
        (handle_req_packet reqs peer data).reqs = insert peer reqs) := by
  cases hro : requestOf data with
  | none => rw [hro] at hreq; simp at hreq
  | some p =>
    rcases requestOf_shape data p hro with ⟨r, rfl⟩ | ⟨r, rfl⟩ <;>
      refine ⟨fun hin => ?_, fun hout => ?_⟩ <;>
      simp [handle_req_packet, hro, spawnCount, isSpawn,
        List.countP_cons, List.countP_nil, *]

/-- Witness for C1: a fresh peer's request is registered and spawns one task. -/
theorem C1_witness :
    (requestOf rrqBytes).isSome = true ∧ peer0 ∉ regEmpty ∧
      spawnCount (handle_req_packet regEmpty peer0 rrqBytes).events = 1 ∧
      (handle_req_packet regEmpty peer0 rrqBytes).reqs = insert peer0 regEmpty :=
  ⟨by decide, by decide,
    (C1_duplicate_request_suppression regEmpty peer0 rrqBytes (by decide)).2
      (by decide)⟩

/-- C2: a datagram that fails to decode, or decodes to a packet that is not
a Read- or Write-Request, is ignored by the dispatcher: no events are
emitted (no reply, no spawned task), the registry is unchanged, nothing
panics. -/
theorem C2_non_request_ignored (reqs : Finset SocketAddr) (peer : SocketAddr)
    (data : List Nat) (hreq : requestOf data = none) :
    handle_req_packet reqs peer data = ⟨[], reqs, false⟩ := by
  unfold handle_req_packet
  rw [hreq]

/-- Witness for C2 at a concrete Ack datagram (decodes, but not a request). -/
theorem C2_witness :
    requestOf [0, 4, 0, 5] = none ∧
      handle_req_packet regEmpty peer0 [0, 4, 0, 5] = ⟨[], regEmpty, false⟩ :=
  ⟨by decide, C2_non_request_ignored regEmpty peer0 [0, 4, 0, 5] (by decide)⟩

/-- C9: the unreachable branch of handle_req_packet is never executed: for
every registry, peer and datagram the panicked flag of the outcome is
false. -/
theorem C9_unreachable_not_executed (reqs : Finset SocketAddr)
    (peer : SocketAddr) (data : List Nat) :
    (handle_req_packet reqs peer data).panicked = false := by
  unfold handle_req_packet
  cases hro : requestOf data with
  | none => simp
  | some p =>
    rcases requestOf_shape data p hro with ⟨r, rfl⟩ | ⟨r, rfl⟩ <;>
      by_cases hin : peer ∈ reqs <;> simp [hin]

/-- C4: when a spawned transfer task finishes, run_req removes the peer
from the request registry unconditionally: on success, on failure, and
also when sending the final Error packet itself fails (bind or send). -/
theorem C4_unconditional_removal (result : Except TftpError Unit)
    (bindOk sendOk : Bool) (peer : SocketAddr) (reqs : Finset SocketAddr) :
    (run_req result bindOk sendOk peer reqs).2 = reqs.erase peer ∧
      peer ∉ (run_req result bindOk sendOk peer reqs).2 ∧
      Event.removeFromRegistry peer ∈
        (run_req result bindOk sendOk peer reqs).1 := by
  refine ⟨rfl, ?_, ?_⟩
  · exact Finset.not_mem_erase peer reqs
  · cases result <;> cases bindOk <;> cases sendOk <;>
      simp [run_req, send_error]

/-- C5 fails as stated at a concrete input: the single Error packet of a
failed transfer is sent from the socket that send_error freshly binds,
which is not the transfer machine's own ephemeral socket. -/
theorem C5_counterexample :
    ((run_req (Except.error (TftpError.Packet ErrorCode.FileNotFound)) true
          true peer0 regEmpty).1.filter isSendErr =
        [Event.sendErrorPacket sendErrorSocketId peer0 ErrorCode.FileNotFound]) ∧
      sendErrorSocketId ≠ transferSocketId := by decide

/-- C5 (amended): if a transfer task ends in failure, exactly one
best-effort Error packet is sent to the peer — from a newly bound
ephemeral socket, not the transfer machine's own socket — when the fresh
bind succeeds, and none when even the bind fails; a failure of the bind
or of the send is logged and swallowed, never retried; if the task ends
successfully, no Error packet is sent. -/
theorem C5_amended_error_send (result : Except TftpError Unit)
    (bindOk sendOk : Bool) (peer : SocketAddr) (reqs : Finset SocketAddr) :
    (∀ e, result = Except.error e →
      sendErrCount (run_req result bindOk sendOk peer reqs).1 =
          (if bindOk then 1 else 0) ∧
        (∀ sid q c,
          Event.sendErrorPacket sid q c ∈
              (run_req result bindOk sendOk peer reqs).1 →
            sid = sendErrorSocketId ∧ sid ≠ transferSocketId ∧ q = peer ∧
              c = e.intoCode) ∧
        ((bindOk = false ∨ sendOk = false) →
          Event.logSendFailure peer ∈
            (run_req result bindOk sendOk peer reqs).1) ∧
        (bindOk = true → sendOk = true →
          Event.logSendFailure peer ∉
            (run_req result bindOk sendOk peer reqs).1)) ∧
    (result = Except.ok () →
      sendErrCount (run_req result bindOk sendOk peer reqs).1 = 0) := by
  constructor
  · rintro e rfl
    cases bindOk <;> cases sendOk <;>
      simp [run_req, send_error, sendErrCount, isSendErr, List.countP_cons,
        List.countP_nil, sendErrorSocketId, transferSocketId] <;>
      exact fun sid q c h1 h2 h3 => ⟨h1, by omega, h2, h3⟩
  · rintro rfl
    simp [run_req, sendErrCount, List.countP_cons, List.countP_nil, isSendErr]

/-- Witness for the amended C5 at a concrete failed transfer. -/
theorem C5_amended_witness :
    sendErrCount (run_req (Except.error TftpError.Bind) true true peer0
        regEmpty).1 = 1 := by
  have h := (C5_amended_error_send (Except.error TftpError.Bind) true true
    peer0 regEmpty).1 TftpError.Bind rfl
  simpa using h.1

/-- C6: the serve loop ends with an error exactly when the listening socket
itself fails: over any finite prefix of network activity, serveRun returns
an error iff the prefix contains a socket error; handling a datagram,
whatever the transfer outcome, never ends the loop. -/
theorem C6_serve_error_iff_socket_error (evts : List NetEvent)
    (st : ServeState) :
    (∃ e, serveRun evts st = Except.error e) ↔
      ∃ e, NetEvent.sockErr e ∈ evts := by
  induction evts generalizing st with
  | nil => simp [serveRun]
  | cons ev rest ih =>
    cases ev with
    | datagram p d =>
      simp only [serveRun]
      rw [ih]
      simp
    | sockErr e =>
      constructor
      · intro _
        exact ⟨e, by simp⟩
      · intro _
        exact ⟨e, rfl⟩

/-- C7: a failing collaborator open call (read_req_open / write_req_open)
with application error e makes the request future fail with the protocol
error Error::Packet(e); the translation into the enumerated wire codes
keeps that code, and the dispatcher's post-task handling sends the peer an
Error packet carrying exactly it. -/
theorem C7_open_error_translated (e : ErrorCode)
    (restResult : Except TftpError Unit) (sendOk : Bool) (peer : SocketAddr)
    (reqs : Finset SocketAddr) :
    req_fut_rrq (Except.error e) restResult =
        Except.error (TftpError.Packet e) ∧
      req_fut_wrq (Except.error e) restResult =
        Except.error (TftpError.Packet e) ∧
      (TftpError.Packet e).intoCode = e ∧
      Event.sendErrorPacket sendErrorSocketId peer e ∈
        (run_req (req_fut_rrq (Except.error e) restResult) true sendOk peer
          reqs).1 := by
  refine ⟨rfl, rfl, rfl, ?_⟩
  cases sendOk <;>
    simp [req_fut_rrq, run_req, send_error, TftpError.intoCode]

/-- The peer and truncated payload the serve loop hands to the handler for
one network event, if any. -/
def truncatedOf : NetEvent → Option (SocketAddr × List Nat)
  | .datagram p d => some (p, d.take 4096)
  | .sockErr _ => none

theorem serveRun_handled (evts : List NetEvent) :
    ∀ st st2, serveRun evts st = Except.ok st2 →
      st2.handled = st.handled ++ evts.filterMap truncatedOf := by
  induction evts with
  | nil =>
    intro st st2 hok
    simp only [serveRun, Except.ok.injEq] at hok
    subst hok
    simp
  | cons ev rest ih =>
    intro st st2 hok
    cases ev with
    | sockErr e => simp [serveRun] at hok
    | datagram p d =>
      simp only [serveRun] at hok
      have h2 := ih _ _ hok
      simp [truncatedOf, h2, List.filterMap_cons]

theorem truncated_length (evts : List NetEvent) :
    ∀ pd ∈ evts.filterMap truncatedOf, pd.2.length ≤ 4096 := by
  intro pd hpd
  simp only [List.mem_filterMap] at hpd
  obtain ⟨ev, _, hev⟩ := hpd
  cases ev with
  | datagram p d =>
    simp only [truncatedOf, Option.some.injEq] at hev
    rw [← hev]
    simp [List.length_take]
  | sockErr e => simp [truncatedOf] at hev

/-- C8: the dispatcher receives into a fixed 4096-byte buffer: whenever the
serve loop consumes a prefix of network activity without a socket error,
the datagrams handed to handle_req_packet are exactly the received ones
truncated to their first 4096 bytes, in order, and every handled payload
is at most 4096 bytes long. -/
theorem C8_recv_truncated (evts : List NetEvent) (st st2 : ServeState)
    (hok : serveRun evts st = Except.ok st2) :
    st2.handled = st.handled ++ evts.filterMap truncatedOf ∧
      ∀ pd ∈ evts.filterMap truncatedOf, pd.2.length ≤ 4096 :=
  ⟨serveRun_handled evts st st2 hok, truncated_length evts⟩

/-- A 4100-byte datagram payload. -/
def bigData : List Nat := List.replicate 4100 7

/-- The dispatcher state before the witness run. -/
def st0 : ServeState := ⟨∅, [], []⟩

/-- The dispatcher state after handling the oversized datagram. -/
def st1 : ServeState := ⟨∅, [], [(peer0, List.replicate 4096 7)]⟩

/-- Witness for C8: a 4100-byte datagram is handled truncated to 4096
bytes. -/
theorem C8_witness :
    serveRun [NetEvent.datagram peer0 bigData] st0 = Except.ok st1 ∧
      st1.handled = st0.handled ++
        [NetEvent.datagram peer0 bigData].filterMap truncatedOf := by
  have hmin : min 4096 4100 = 4096 := by norm_num
  have ht : bigData.take 4096 = List.replicate 4096 7 := by
    unfold bigData
    rw [List.take_replicate, hmin]
  have hcons : List.replicate 4096 7 = 7 :: List.replicate 4095 7 := by
    rw [show (4096 : Nat) = 4095 + 1 from rfl, List.replicate_succ]
  have hro : requestOf (List.replicate 4096 7) = none := by
    rw [hcons]
    rfl
  have hh : handle_req_packet st0.reqs peer0 (List.replicate 4096 7) =
      ⟨[], st0.reqs, false⟩ := by
    unfold handle_req_packet
    rw [hro]
  have hok : serveRun [NetEvent.datagram peer0 bigData] st0 = Except.ok st1 := by
    rw [show serveRun [NetEvent.datagram peer0 bigData] st0 =
      Except.ok ⟨(handle_req_packet st0.reqs peer0 (bigData.take 4096)).reqs,
        st0.events ++
          (handle_req_packet st0.reqs peer0 (bigData.take 4096)).events,
        st0.handled ++ [(peer0, bigData.take 4096)]⟩ from rfl]
    rw [ht, hh]
    rfl
  exact ⟨hok,
    (C8_recv_truncated [NetEvent.datagram peer0 bigData] st0 st1 hok).1⟩

/-- C10: inside a failed transfer task, the Error-send attempt (or the log
of its failure) happens strictly before the registry removal: the removal
is the last event of run_req, occurs only there, and the send attempt (the
log, when the bind or send failed) lies strictly before it. -/
theorem C10_send_before_removal (e : TftpError) (bindOk sendOk : Bool)
    (peer : SocketAddr) (reqs : Finset SocketAddr) :
    (run_req (Except.error e) bindOk sendOk peer reqs).1 =
        (run_req (Except.error e) bindOk sendOk peer reqs).1.dropLast ++
          [Event.removeFromRegistry peer] ∧
      Event.removeFromRegistry peer ∉
        (run_req (Except.error e) bindOk sendOk peer reqs).1.dropLast ∧
      (bindOk = true →
        Event.sendErrorPacket sendErrorSocketId peer e.intoCode ∈
          (run_req (Except.error e) bindOk sendOk peer reqs).1.dropLast) ∧
      ((bindOk = false ∨ sendOk = false) →
        Event.logSendFailure peer ∈
          (run_req (Except.error e) bindOk sendOk peer reqs).1.dropLast) := by
  cases bindOk <;> cases sendOk <;>
    simp [run_req, send_error, List.dropLast]

/-- Witness for C10 at a concrete failed transfer whose Error send fails. -/
theorem C10_witness :
    Event.sendErrorPacket sendErrorSocketId peer0
        (TftpError.Packet ErrorCode.DiskFull).intoCode ∈
      (run_req (Except.error (TftpError.Packet ErrorCode.DiskFull)) true false
          peer0 regEmpty).1.dropLast ∧
    Event.removeFromRegistry peer0 ∉
      (run_req (Except.error (TftpError.Packet ErrorCode.DiskFull)) true false
          peer0 regEmpty).1.dropLast :=
  ⟨(C10_send_before_removal (TftpError.Packet ErrorCode.DiskFull) true false
      peer0 regEmpty).2.2.1 rfl,
    (C10_send_before_removal (TftpError.Packet ErrorCode.DiskFull) true false
      peer0 regEmpty).2.1⟩

end Tftp
